import Mathlib

/-!
Shallow embedding of the cyclic XOR combiner in src/xor.py.

The Python module has two public functions:

* xor_iter(*inputs, limit_length=None, encoding="ascii"): normalizes the
  inputs (int v becomes [v], str s becomes s.encode(encoding), everything
  else passes through), wraps each normalized input in itertools.cycle,
  and yields, per position, the left fold of bitwise XOR over the values
  pulled from every cycling view.  The limit_length policy decides how
  many elements the resulting iterator yields (None/True consult the max
  known len() of the original inputs; False never stops; an integer N
  stops after N).
* xor(*inputs, length=None): wraps xor_iter with limit_length = length
  (or True when length is None) and materializes bytes(), which raises
  ValueError when a combined value is not a byte.

Element values are modelled as natural numbers (Python's unbounded
non-negative integers cover the byte domain and every example in the
repository; bitwise XOR on them is Nat.xor).  Laziness is modelled by
functions from the position to the produced value; a value of none
models a Python exception raised when that element is requested
(a reduce over an empty step, i.e. TypeError).
-/

/-- One raw input to the combiner, mirroring the accepted Python types:
a bare integer, a text string, a sequence with a known length (bytes,
list, ...; Sized in the source), a finite iterable whose length is not
statically known (a generator), or a genuinely infinite iterable such as
itertools.cycle, modelled by its stream of values. -/
inductive Input where
  | int (v : Nat)
  | str (s : String)
  | bytes (xs : List Nat)
  | finIter (xs : List Nat)
  | stream (f : Nat → Nat)

/-- The default codec of the source: ascii maps each character to its
code point (the source passes the encoding name to str.encode; claims
only exercise ASCII text, for which this is the byte sequence). -/
def asciiEncode (s : String) : List Nat :=
  s.data.map Char.toNat

/-- A normalized input after itertools.cycle: either a buffered finite
sequence that is replayed from the start once exhausted, or a pass-through
infinite stream. -/
inductive NormInput where
  | fin (xs : List Nat)
  | inf (f : Nat → Nat)

/-- Embedding of _normalize_inputs on one argument: an int v becomes the
single-element sequence [v], a str is encoded, anything else passes
through.  The subsequent itertools.cycle in xor_iter is folded in here:
a finite sequence becomes a cycling buffer, an infinite iterable is
passed through unchanged. -/
def normalizeInput (encode : String → List Nat) : Input → NormInput
  | Input.int v => NormInput.fin [v]
  | Input.str s => NormInput.fin (encode s)
  | Input.bytes xs => NormInput.fin xs
  | Input.finIter xs => NormInput.fin xs
  | Input.stream f => NormInput.inf f

/-- Embedding of _normalize_inputs over the whole argument list. -/
def normalize_inputs (encode : String → List Nat) (args : List Input) : List NormInput :=
  args.map (normalizeInput encode)

/-- What next() on a cycling view yields at step i: element i mod length
for a non-empty buffered sequence, none (StopIteration) for an empty one,
and the stream value for an infinite iterable. -/
def NormInput.elem : NormInput → Nat → Option Nat
  | NormInput.fin xs, i => xs[i % xs.length]?
  | NormInput.inf f, i => some (f i)

/-- The value a non-empty cycling view yields at step i (total form). -/
def NormInput.val : NormInput → Nat → Nat
  | NormInput.fin xs, i => xs.getD (i % xs.length) 0
  | NormInput.inf f, i => f i

/-- A normalized input that yields at least one element when cycled. -/
def NormInput.Nonempty : NormInput → Prop
  | NormInput.fin xs => xs ≠ []
  | NormInput.inf _ => True

/-- A normalized input all of whose values are bytes (0..255). -/
def NormInput.ByteValued : NormInput → Prop
  | NormInput.fin xs => ∀ v ∈ xs, v < 256
  | NormInput.inf f => ∀ i, f i < 256

/-- The values map(next, cycling_inputs) produces at step i: the map stops
at the first cycling view that raises StopIteration (an exhausted empty
input), so only the inputs preceding the first empty one contribute. -/
def pullAll : List NormInput → Nat → List Nat
  | [], _ => []
  | n :: rest, i =>
    match n.elem i with
    | Option.none => []
    | some v => v :: pullAll rest i

/-- functools.reduce of bitwise XOR with no initializer: none (TypeError)
on an empty step, otherwise the left fold starting from the first value. -/
def reduceXor : List Nat → Option Nat
  | [] => Option.none
  | x :: xs => some (xs.foldl (· ^^^ ·) x)

/-- One produced element of the combined stream: the XOR reduce over the
values pulled at step i. -/
def streamAt (norms : List NormInput) (i : Nat) : Option Nat :=
  reduceXor (pullAll norms i)

/-- Bitwise XOR over a whole list of values. -/
def xorAll (l : List Nat) : Nat :=
  l.foldl (· ^^^ ·) 0

/-- len(x) for inputs that are isinstance(x, Sized): a string reports its
pre-encoding character count, a sequence its length; bare integers and
iterables without __len__ report nothing. -/
def sizedLen : Input → Option Nat
  | Input.int _ => Option.none
  | Input.str s => some s.length
  | Input.bytes xs => some xs.length
  | Input.finIter _ => Option.none
  | Input.stream _ => Option.none

/-- max((len(x) for x in inputs if isinstance(x, Sized)), default=None):
the largest known length among the original, pre-normalization inputs. -/
def max_size (inputs : List Input) : Option Nat :=
  (inputs.filterMap sizedLen).max?

/-- The limit_length argument of xor_iter: None, True, False, or an
explicit non-negative count. -/
inductive Limit where
  | none
  | tru
  | fls
  | nat (n : Nat)
deriving DecidableEq

/-- The iterator xor_iter returns: an optional islice bound (none means
unbounded) plus the lazy element stream; elem i = none models a TypeError
raised at the moment element i is requested. -/
structure LazyIter where
  bound : Option Nat
  elem : Nat → Option Nat

/-- Embedding of xor_iter.  Returns Except.error () for the TypeError
raised at construction time when limit_length is True and no input has a
known length; otherwise the (possibly bounded) lazy stream. -/
def xor_iter (encode : String → List Nat) (inputs : List Input) (limit : Limit) :
    Except Unit LazyIter :=
  let s := streamAt (normalize_inputs encode inputs)
  match limit with
  | Limit.none =>
    match max_size inputs with
    | Option.none => Except.ok (LazyIter.mk Option.none s)
    | some m => Except.ok (LazyIter.mk (some m) s)
  | Limit.tru =>
    match max_size inputs with
    | Option.none => Except.error ()
    | some m => Except.ok (LazyIter.mk (some m) s)
  | Limit.fls => Except.ok (LazyIter.mk Option.none s)
  | Limit.nat n => Except.ok (LazyIter.mk (some n) s)

/-- Pulling k successive elements starting at position s, propagating the
first per-element failure. -/
def takeFrom (f : Nat → Option Nat) : Nat → Nat → Option (List Nat)
  | _, 0 => some []
  | s, k + 1 =>
    match f s with
    | Option.none => Option.none
    | some v =>
      match takeFrom f (s + 1) k with
      | Option.none => Option.none
      | some l => some (v :: l)

/-- Materializing the first k elements of a lazy stream (list(islice(.., k))). -/
def takeN (f : Nat → Option Nat) (k : Nat) : Option (List Nat) :=
  takeFrom f 0 k

/-- The two Python exceptions the xor convenience wrapper can raise. -/
inductive PyError where
  | typeError
  | valueError
deriving DecidableEq

instance {ε α : Type} [DecidableEq ε] [DecidableEq α] : DecidableEq (Except ε α) :=
  fun x y =>
    match x, y with
    | Except.ok a, Except.ok b =>
      if h : a = b then isTrue (by rw [h]) else
        isFalse (fun hc => h (Except.ok.inj hc))
    | Except.ok _, Except.error _ => isFalse (fun hc => Except.noConfusion hc)
    | Except.error _, Except.ok _ => isFalse (fun hc => Except.noConfusion hc)
    | Except.error e, Except.error f =>
      if h : e = f then isTrue (by rw [h]) else
        isFalse (fun hc => h (Except.error.inj hc))

/-- The limit_length value xor passes to xor_iter: the explicit length if
given, else True. -/
def xorLimit : Option Nat → Limit
  | some n => Limit.nat n
  | Option.none => Limit.tru

/-- bytes() applied to the combined integer list: ValueError as soon as a
value is not a byte, otherwise the byte string. -/
def toBytes : List Nat → Except PyError (List Nat)
  | [] => Except.ok []
  | v :: l =>
    if v < 256 then
      match toBytes l with
      | Except.error e => Except.error e
      | Except.ok r => Except.ok (v :: r)
    else Except.error PyError.valueError

/-- Embedding of xor: run xor_iter with the policy derived from length and
materialize the bounded result as bytes.  Construction-time TypeError and
per-element TypeError both surface as typeError; out-of-range combined
values surface as valueError.  The unbounded branch is unreachable here:
xorLimit only produces True or an explicit bound, and the True policy
either errors or is bounded by max_size. -/
def xor (encode : String → List Nat) (inputs : List Input) (length : Option Nat) :
    Except PyError (List Nat) :=
  match xor_iter encode inputs (xorLimit length) with
  | Except.error _ => Except.error PyError.typeError
  | Except.ok it =>
    match it.bound with
    | Option.none => Except.error PyError.typeError
    | some n =>
      match takeN it.elem n with
      | Option.none => Except.error PyError.typeError
      | some l => toBytes l

example : xor asciiEncode [Input.bytes [49, 49, 49], Input.bytes [49]] Option.none
    = Except.ok [0, 0, 0] := by decide

example : xor asciiEncode [Input.bytes [49, 49, 49], Input.bytes [49]] (some 2)
    = Except.ok [0, 0] := by decide

example : xor asciiEncode [Input.bytes [256, 123], Input.bytes [0, 123]] Option.none
    = Except.error PyError.valueError := by decide

example : xor asciiEncode [Input.bytes [49, 50], Input.int 49] Option.none
    = Except.ok [0, 3] := by decide

example : xor asciiEncode [Input.bytes [97, 98, 99], Input.bytes []] Option.none
    = Except.ok [97, 98, 99] := by decide

example : xor asciiEncode [Input.bytes [49], Input.str "1"] Option.none
    = Except.ok [0] := by decide

/-! Basic lemmas about the embedding. -/

theorem NormInput.elem_eq_val (n : NormInput) (i : Nat) (h : n.Nonempty) :
    n.elem i = some (n.val i) := by
  cases n with
  | fin xs =>
    cases xs with
    | nil => exact absurd rfl h
    | cons x l =>
      have hlt : i % (x :: l).length < (x :: l).length :=
        Nat.mod_lt _ (Nat.succ_pos _)
      simp only [NormInput.elem, NormInput.val, List.getD_eq_getElem?_getD,
        List.getElem?_eq_getElem hlt, Option.getD_some]
  | inf f => rfl

theorem pullAll_eq_map (ns : List NormInput) (i : Nat)
    (h : ∀ n ∈ ns, n.Nonempty) :
    pullAll ns i = ns.map (fun n => n.val i) := by
  induction ns with
  | nil => rfl
  | cons n rest ih =>
    have h1 : n.Nonempty := h n (List.mem_cons_self n rest)
    simp only [pullAll, NormInput.elem_eq_val n i h1, List.map_cons]
    rw [ih (fun m hm => h m (List.mem_cons_of_mem n hm))]

theorem reduceXor_eq_xorAll (l : List Nat) (h : l ≠ []) :
    reduceXor l = some (xorAll l) := by
  cases l with
  | nil => exact absurd rfl h
  | cons x xs => simp [reduceXor, xorAll, Nat.zero_xor]

theorem streamAt_eq_xorAll (ns : List NormInput) (i : Nat) (h0 : ns ≠ [])
    (h : ∀ n ∈ ns, n.Nonempty) :
    streamAt ns i = some (xorAll (ns.map (fun n => n.val i))) := by
  rw [streamAt, pullAll_eq_map ns i h, reduceXor_eq_xorAll]
  exact fun hmap => h0 (List.map_eq_nil_iff.mp hmap)

theorem takeFrom_total (f : Nat → Option Nat) (g : Nat → Nat)
    (hf : ∀ i, f i = some (g i)) :
    ∀ k s, takeFrom f s k = some ((List.range' s k).map g) := by
  intro k
  induction k with
  | zero => intro s; rfl
  | succ k ih =>
    intro s
    rw [takeFrom, hf s, ih (s + 1)]
    simp [List.range'_succ]

theorem takeN_total (f : Nat → Option Nat) (g : Nat → Nat)
    (hf : ∀ i, f i = some (g i)) (k : Nat) :
    takeN f k = some ((List.range k).map g) := by
  rw [takeN, takeFrom_total f g hf k 0, List.range_eq_range']

theorem xorLt256 {a b : Nat} (ha : a < 256) (hb : b < 256) : a ^^^ b < 256 := by
  have h : (256 : Nat) = 2 ^ 8 := by norm_num
  rw [h] at ha hb ⊢
  exact Nat.bitwise_lt ha hb

theorem foldl_xor_lt_256 (l : List Nat) (h : ∀ v ∈ l, v < 256) :
    ∀ acc : Nat, acc < 256 → l.foldl (· ^^^ ·) acc < 256 := by
  induction l with
  | nil => intro acc hacc; exact hacc
  | cons x xs ih =>
    intro acc hacc
    exact ih (fun v hv => h v (List.mem_cons_of_mem x hv)) (acc ^^^ x)
      (xorLt256 hacc (h x (List.mem_cons_self x xs)))

theorem xorAll_lt_256 (l : List Nat) (h : ∀ v ∈ l, v < 256) : xorAll l < 256 :=
  foldl_xor_lt_256 l h 0 (by norm_num)

theorem toBytes_ok (l : List Nat) (h : ∀ v ∈ l, v < 256) :
    toBytes l = Except.ok l := by
  induction l with
  | nil => rfl
  | cons v l ih =>
    simp [toBytes, h v (List.mem_cons_self v l),
      ih (fun w hw => h w (List.mem_cons_of_mem v hw))]

theorem toBytes_error (l : List Nat) (h : ∃ v ∈ l, 256 ≤ v) :
    toBytes l = Except.error PyError.valueError := by
  induction l with
  | nil => simp at h
  | cons x xs ih =>
    by_cases hx : x < 256
    · obtain ⟨v, hv, hge⟩ := h
      rcases List.mem_cons.mp hv with heq | hv2
      · omega
      · simp [toBytes, hx, ih ⟨v, hv2, hge⟩]
    · simp [toBytes, hx]

instance (n : NormInput) : Decidable n.Nonempty :=
  match n with
  | NormInput.fin xs => (inferInstance : Decidable (xs ≠ []))
  | NormInput.inf _ => isTrue trivial

theorem NormInput.elem_of_empty {n : NormInput} (hn : ¬ n.Nonempty) (i : Nat) :
    n.elem i = Option.none := by
  cases n with
  | fin xs =>
    cases xs with
    | nil => rfl
    | cons x l => exact absurd (List.cons_ne_nil x l) hn
  | inf f => exact absurd trivial hn

theorem NormInput.val_lt_256 {n : NormInput} (hb : n.ByteValued) (hne : n.Nonempty)
    (i : Nat) : n.val i < 256 := by
  cases n with
  | fin xs =>
    cases xs with
    | nil => exact absurd rfl hne
    | cons x l =>
      have hlt : i % (x :: l).length < (x :: l).length :=
        Nat.mod_lt _ (Nat.succ_pos _)
      simp only [NormInput.val, List.getD_eq_getElem?_getD,
        List.getElem?_eq_getElem hlt, Option.getD_some]
      exact hb _ (List.getElem_mem hlt)
  | inf f => exact hb i

theorem max_size_ne_nil {inputs : List Input} {m : Nat}
    (h : max_size inputs = some m) : inputs ≠ [] := by
  intro heq
  subst heq
  simp [max_size] at h

theorem xor_iter_nat_eval (encode : String → List Nat) (inputs : List Input) (n : Nat) :
    xor_iter encode inputs (Limit.nat n) =
      Except.ok (LazyIter.mk (some n) (streamAt (normalize_inputs encode inputs))) := rfl

theorem xor_iter_fls_eval (encode : String → List Nat) (inputs : List Input) :
    xor_iter encode inputs Limit.fls =
      Except.ok (LazyIter.mk Option.none (streamAt (normalize_inputs encode inputs))) := rfl

theorem xor_iter_tru_some (encode : String → List Nat) (inputs : List Input) (m : Nat)
    (h : max_size inputs = some m) :
    xor_iter encode inputs Limit.tru =
      Except.ok (LazyIter.mk (some m) (streamAt (normalize_inputs encode inputs))) := by
  unfold xor_iter
  rw [h]

theorem xor_iter_tru_none (encode : String → List Nat) (inputs : List Input)
    (h : max_size inputs = Option.none) :
    xor_iter encode inputs Limit.tru = Except.error () := by
  unfold xor_iter
  rw [h]

theorem xor_iter_none_some (encode : String → List Nat) (inputs : List Input) (m : Nat)
    (h : max_size inputs = some m) :
    xor_iter encode inputs Limit.none =
      Except.ok (LazyIter.mk (some m) (streamAt (normalize_inputs encode inputs))) := by
  unfold xor_iter
  rw [h]

theorem xor_iter_none_none (encode : String → List Nat) (inputs : List Input)
    (h : max_size inputs = Option.none) :
    xor_iter encode inputs Limit.none =
      Except.ok (LazyIter.mk Option.none (streamAt (normalize_inputs encode inputs))) := by
  unfold xor_iter
  rw [h]

theorem xor_eval_ok (encode : String → List Nat) (inputs : List Input)
    (len? : Option Nat) (n : Nat) (l : List Nat)
    (hiter : xor_iter encode inputs (xorLimit len?) =
      Except.ok (LazyIter.mk (some n) (streamAt (normalize_inputs encode inputs))))
    (htake : takeN (streamAt (normalize_inputs encode inputs)) n = some l) :
    xor encode inputs len? = toBytes l := by
  have hdef : xor encode inputs len? =
      match xor_iter encode inputs (xorLimit len?) with
      | Except.error _ => Except.error PyError.typeError
      | Except.ok it =>
        match it.bound with
        | Option.none => Except.error PyError.typeError
        | some n =>
          match takeN it.elem n with
          | Option.none => Except.error PyError.typeError
          | some l => toBytes l := rfl
  rw [hdef, hiter]
  dsimp only
  rw [htake]

theorem produce_all (encode : String → List Nat) (inputs : List Input)
    (h0 : inputs ≠ []) (hne : ∀ n ∈ normalize_inputs encode inputs, n.Nonempty)
    (k : Nat) :
    takeN (streamAt (normalize_inputs encode inputs)) k =
      some ((List.range k).map
        (fun i => xorAll ((normalize_inputs encode inputs).map (fun n => n.val i)))) := by
  apply takeN_total
  intro i
  apply streamAt_eq_xorAll _ _ _ hne
  intro hnil
  exact h0 (List.map_eq_nil_iff.mp hnil)

theorem getD_lt_256 {a : List Nat} (ha : ∀ v ∈ a, v < 256) {i : Nat}
    (hi : i < a.length) : a.getD i 0 < 256 := by
  rw [List.getD_eq_getElem?_getD, List.getElem?_eq_getElem hi, Option.getD_some]
  exact ha _ (List.getElem_mem hi)

/-- Position-wise XOR of two byte lists, the first list's length giving the
result length (each position below that length is also below the second
list's length whenever the lengths agree). -/
def zipXor (a b : List Nat) : List Nat :=
  (List.range a.length).map (fun i => a.getD i 0 ^^^ b.getD i 0)

theorem zipXor_length (a b : List Nat) : (zipXor a b).length = a.length := by
  simp [zipXor]

theorem zipXor_get (a b : List Nat) (i : Nat) (hi : i < (zipXor a b).length) :
    (zipXor a b).get ⟨i, hi⟩ = a.getD i 0 ^^^ b.getD i 0 := by
  simp [zipXor]

theorem zipXor_getD (a b : List Nat) (i : Nat) (hi : i < a.length) :
    (zipXor a b).getD i 0 = a.getD i 0 ^^^ b.getD i 0 := by
  have hi2 : i < (zipXor a b).length := by rw [zipXor_length]; exact hi
  rw [List.getD_eq_getElem?_getD, List.getElem?_eq_getElem hi2, Option.getD_some]
  simp [zipXor]

theorem zipXor_lt_256 (a b : List Nat) (ha : ∀ v ∈ a, v < 256)
    (hb : ∀ v ∈ b, v < 256) (hlen : a.length = b.length) :
    ∀ v ∈ zipXor a b, v < 256 := by
  intro v hv
  simp only [zipXor, List.mem_map, List.mem_range] at hv
  obtain ⟨i, hi, rfl⟩ := hv
  exact xorLt256 (getD_lt_256 ha hi) (getD_lt_256 hb (hlen ▸ hi))

theorem zipXor_involution (a b : List Nat) :
    zipXor (zipXor a b) b = a := by
  apply List.ext_getElem
  · rw [zipXor_length, zipXor_length]
  · intro i h1 h2
    have hia : i < a.length := by rwa [zipXor_length, zipXor_length] at h1
    have h3 : i < (zipXor a b).length := by rwa [zipXor_length]
    calc (zipXor (zipXor a b) b)[i]
        = (zipXor a b).getD i 0 ^^^ b.getD i 0 := by
          simp [zipXor]
      _ = (a.getD i 0 ^^^ b.getD i 0) ^^^ b.getD i 0 := by
          rw [zipXor_getD a b i hia]
      _ = a.getD i 0 := Nat.xor_cancel_right _ _
      _ = a[i] := by
          rw [List.getD_eq_getElem?_getD, List.getElem?_eq_getElem hia, Option.getD_some]

theorem xor_pair_eval (encode : String → List Nat) (a b : List Nat)
    (ha : ∀ v ∈ a, v < 256) (hb : ∀ v ∈ b, v < 256) (hlen : a.length = b.length) :
    xor encode [Input.bytes a, Input.bytes b] Option.none = Except.ok (zipXor a b) := by
  have hmax : max_size [Input.bytes a, Input.bytes b] = some a.length := by
    simp [max_size, sizedLen, List.filterMap_cons, List.max?, ← hlen]
  by_cases hnl : a = []
  · subst hnl
    have hb0 : b = [] := List.length_eq_zero.mp hlen.symm
    subst hb0
    rfl
  · have hbne : b ≠ [] := by
      intro hb0
      subst hb0
      exact hnl (List.length_eq_zero.mp hlen)
    have hne : ∀ n ∈ normalize_inputs encode [Input.bytes a, Input.bytes b],
        n.Nonempty := by
      intro n hn
      simp only [normalize_inputs, normalizeInput, List.map_cons, List.map_nil,
        List.mem_cons, List.not_mem_nil, or_false] at hn
      rcases hn with rfl | rfl
      · exact hnl
      · exact hbne
    have htake := produce_all encode [Input.bytes a, Input.bytes b]
      (List.cons_ne_nil _ _) hne a.length
    rw [xor_eval_ok encode _ Option.none a.length _
      (xor_iter_tru_some _ _ _ hmax) htake]
    have hlist : (List.range a.length).map
        (fun i => xorAll ((normalize_inputs encode
          [Input.bytes a, Input.bytes b]).map (fun n => n.val i))) = zipXor a b := by
      rw [zipXor]
      apply List.map_congr_left
      intro i hi
      rw [List.mem_range] at hi
      simp [normalize_inputs, normalizeInput, NormInput.val, xorAll,
        Nat.zero_xor, Nat.mod_eq_of_lt hi, Nat.mod_eq_of_lt (hlen ▸ hi)]
    rw [hlist]
    exact toBytes_ok _ (zipXor_lt_256 a b ha hb hlen)

/-- C1: under the true/length-of-longest policy (limit_length True, or the
unset None default when some input has a known length), xor_iter is bounded
by max_size, the maximum known length among the original pre-normalization
inputs; materializing it yields exactly max_size elements; and the element
at position i is the bitwise XOR over all inputs of that input's normalized
value at position i modulo its normalized length (a genuinely infinite
input contributes its value at position i).  Non-emptiness of every
normalized input makes the position-modulo-length description meaningful. -/
theorem c1_true_policy (encode : String → List Nat) (inputs : List Input)
    (limit : Limit) (m : Nat)
    (hlim : limit = Limit.tru ∨ limit = Limit.none)
    (hm : max_size inputs = some m)
    (hne : ∀ n ∈ normalize_inputs encode inputs, n.Nonempty) :
    xor_iter encode inputs limit =
      Except.ok (LazyIter.mk (some m) (streamAt (normalize_inputs encode inputs))) ∧
    takeN (streamAt (normalize_inputs encode inputs)) m =
      some ((List.range m).map
        (fun i => xorAll ((normalize_inputs encode inputs).map (fun n => n.val i)))) ∧
    ((List.range m).map
        (fun i => xorAll ((normalize_inputs encode inputs).map (fun n => n.val i)))).length
      = m := by
  refine ⟨?_, produce_all encode inputs (max_size_ne_nil hm) hne m, by simp⟩
  rcases hlim with rfl | rfl
  · exact xor_iter_tru_some encode inputs m hm
  · exact xor_iter_none_some encode inputs m hm

/-- Witness for c1_true_policy at inputs b"111" and b"1" under limit True:
max_size is 3, exactly 3 elements are produced, each 0x31 XOR 0x31 = 0,
and the claim's example xor(b"111", b"1") == b"\x00\x00\x00" holds. -/
theorem c1_true_policy_witness :
    max_size [Input.bytes [49, 49, 49], Input.bytes [49]] = some 3 ∧
    xor_iter asciiEncode [Input.bytes [49, 49, 49], Input.bytes [49]] Limit.tru =
      Except.ok (LazyIter.mk (some 3)
        (streamAt (normalize_inputs asciiEncode
          [Input.bytes [49, 49, 49], Input.bytes [49]]))) ∧
    takeN (streamAt (normalize_inputs asciiEncode
      [Input.bytes [49, 49, 49], Input.bytes [49]])) 3 = some [0, 0, 0] ∧
    xor asciiEncode [Input.bytes [49, 49, 49], Input.bytes [49]] Option.none =
      Except.ok [0, 0, 0] :=
  ⟨by decide,
    (c1_true_policy asciiEncode [Input.bytes [49, 49, 49], Input.bytes [49]]
      Limit.tru 3 (Or.inl rfl) (by decide) (by decide)).1,
    by decide, by decide⟩

/-- C2: whenever the combined integer sequence materialized by xor contains
a value outside the byte range at a position within the produced length,
xor raises ValueError (and returns no partial result), while the lazy
xor_iter path applies no range check and yields such values unchanged, as
in list(xor_iter([256, 123], [0, 123])) == [256, 0]. -/
theorem c2_range_error (encode : String → List Nat) (inputs : List Input)
    (len? : Option Nat) (n : Nat) (l : List Nat)
    (hiter : xor_iter encode inputs (xorLimit len?) =
      Except.ok (LazyIter.mk (some n) (streamAt (normalize_inputs encode inputs))))
    (htake : takeN (streamAt (normalize_inputs encode inputs)) n = some l)
    (hout : ∃ v ∈ l, 256 ≤ v) :
    xor encode inputs len? = Except.error PyError.valueError ∧
    takeN (streamAt (normalize_inputs asciiEncode
      [Input.bytes [256, 123], Input.bytes [0, 123]])) 2 = some [256, 0] := by
  refine ⟨?_, by decide⟩
  rw [xor_eval_ok encode inputs len? n l hiter htake]
  exact toBytes_error l hout

/-- Witness for c2_range_error at inputs [256, 123] and [0, 123]: the
combined sequence is [256, 0], 256 is out of byte range, the lazy path
yields it unchanged, and xor raises ValueError. -/
theorem c2_range_error_witness :
    xor_iter asciiEncode [Input.bytes [256, 123], Input.bytes [0, 123]]
        (xorLimit Option.none) =
      Except.ok (LazyIter.mk (some 2)
        (streamAt (normalize_inputs asciiEncode
          [Input.bytes [256, 123], Input.bytes [0, 123]]))) ∧
    takeN (streamAt (normalize_inputs asciiEncode
      [Input.bytes [256, 123], Input.bytes [0, 123]])) 2 = some [256, 0] ∧
    (∃ v ∈ [256, 0], 256 ≤ v) ∧
    xor asciiEncode [Input.bytes [256, 123], Input.bytes [0, 123]] Option.none =
      Except.error PyError.valueError :=
  ⟨rfl, by decide, by decide,
    (c2_range_error asciiEncode [Input.bytes [256, 123], Input.bytes [0, 123]]
      Option.none 2 [256, 0] rfl (by decide) (by decide)).1⟩

/-- C3: when no input exposes a known finite length, xor_iter with
limit_length True fails with TypeError at construction time (the returned
value is the error itself, no element is ever produced), and xor without an
explicit length, which uses this strict policy, fails the same way. -/
theorem c3_unknown_length_strict (encode : String → List Nat)
    (inputs : List Input) (hsz : max_size inputs = Option.none) :
    xor_iter encode inputs Limit.tru = Except.error () ∧
    xor encode inputs Option.none = Except.error PyError.typeError := by
  refine ⟨xor_iter_tru_none encode inputs hsz, ?_⟩
  have hdef : xor encode inputs Option.none =
      match xor_iter encode inputs (xorLimit Option.none) with
      | Except.error _ => Except.error PyError.typeError
      | Except.ok it =>
        match it.bound with
        | Option.none => Except.error PyError.typeError
        | some n =>
          match takeN it.elem n with
          | Option.none => Except.error PyError.typeError
          | some l => toBytes l := rfl
  rw [hdef, show xorLimit Option.none = Limit.tru from rfl,
    xor_iter_tru_none encode inputs hsz]

/-- Witness for c3_unknown_length_strict at two infinite cycling streams of
0x31: neither input is Sized, so both calls fail with TypeError. -/
theorem c3_unknown_length_strict_witness :
    max_size [Input.stream (fun _ => 49), Input.stream (fun _ => 49)] =
      Option.none ∧
    xor_iter asciiEncode [Input.stream (fun _ => 49), Input.stream (fun _ => 49)]
      Limit.tru = Except.error () ∧
    xor asciiEncode [Input.stream (fun _ => 49), Input.stream (fun _ => 49)]
      Option.none = Except.error PyError.typeError :=
  ⟨by decide,
    c3_unknown_length_strict asciiEncode
      [Input.stream (fun _ => 49), Input.stream (fun _ => 49)] (by decide)⟩

/-- C4: for a non-empty input list in which no input exposes a known finite
length and every normalized input is non-empty, xor_iter with the unset
default policy succeeds and returns an unbounded stream: requesting any n
elements yields exactly n elements. -/
theorem c4_default_unbounded (encode : String → List Nat) (inputs : List Input)
    (h0 : inputs ≠ []) (hsz : max_size inputs = Option.none)
    (hne : ∀ n ∈ normalize_inputs encode inputs, n.Nonempty) :
    xor_iter encode inputs Limit.none =
      Except.ok (LazyIter.mk Option.none
        (streamAt (normalize_inputs encode inputs))) ∧
    ∀ k, ∃ l, takeN (streamAt (normalize_inputs encode inputs)) k = some l ∧
      l.length = k := by
  refine ⟨xor_iter_none_none encode inputs hsz, ?_⟩
  intro k
  exact ⟨_, produce_all encode inputs h0 hne k, by simp⟩

/-- Witness for c4_default_unbounded at two infinite streams of 0x31: the
default policy does not fail, and the first element is 0x31 XOR 0x31 = 0. -/
theorem c4_default_unbounded_witness :
    max_size [Input.stream (fun _ => 49), Input.stream (fun _ => 49)] =
      Option.none ∧
    (xor_iter asciiEncode [Input.stream (fun _ => 49), Input.stream (fun _ => 49)]
        Limit.none =
      Except.ok (LazyIter.mk Option.none
        (streamAt (normalize_inputs asciiEncode
          [Input.stream (fun _ => 49), Input.stream (fun _ => 49)]))) ∧
     ∀ k, ∃ l, takeN (streamAt (normalize_inputs asciiEncode
        [Input.stream (fun _ => 49), Input.stream (fun _ => 49)])) k = some l ∧
        l.length = k) ∧
    takeN (streamAt (normalize_inputs asciiEncode
      [Input.stream (fun _ => 49), Input.stream (fun _ => 49)])) 1 = some [0] :=
  ⟨by decide,
    c4_default_unbounded asciiEncode
      [Input.stream (fun _ => 49), Input.stream (fun _ => 49)]
      (List.cons_ne_nil _ _) (by decide) (by decide),
    by decide⟩

/-- C5: for all byte sequences a and b of equal length, xor(a, b) returns a
byte sequence of that same length whose element at every position i is the
bitwise XOR of the elements of a and b at position i. -/
theorem c5_xor_pointwise (encode : String → List Nat) (a b : List Nat)
    (ha : ∀ v ∈ a, v < 256) (hb : ∀ v ∈ b, v < 256)
    (hlen : a.length = b.length) :
    ∃ r, xor encode [Input.bytes a, Input.bytes b] Option.none = Except.ok r ∧
      r.length = a.length ∧
      ∀ i (hi : i < r.length), r.get ⟨i, hi⟩ = a.getD i 0 ^^^ b.getD i 0 :=
  ⟨zipXor a b, xor_pair_eval encode a b ha hb hlen, zipXor_length a b,
    zipXor_get a b⟩

/-- Witness for c5_xor_pointwise at a = [1, 2], b = [255, 4]: the result is
[254, 6], of length 2, with 1 XOR 255 = 254 and 2 XOR 4 = 6. -/
theorem c5_xor_pointwise_witness :
    (∀ v ∈ [1, 2], v < 256) ∧ (∀ v ∈ [255, 4], v < 256) ∧
    ([1, 2] : List Nat).length = ([255, 4] : List Nat).length ∧
    xor asciiEncode [Input.bytes [1, 2], Input.bytes [255, 4]] Option.none =
      Except.ok [254, 6] ∧
    (∃ r, xor asciiEncode [Input.bytes [1, 2], Input.bytes [255, 4]] Option.none =
        Except.ok r ∧
      r.length = ([1, 2] : List Nat).length ∧
      ∀ i (hi : i < r.length), r.get ⟨i, hi⟩ =
        ([1, 2] : List Nat).getD i 0 ^^^ ([255, 4] : List Nat).getD i 0) :=
  ⟨by decide, by decide, by decide, by decide,
    c5_xor_pointwise asciiEncode [1, 2] [255, 4] (by decide) (by decide)
      (by decide)⟩

/-- C6: the XOR combination is an involution at the public interface: for
all byte sequences a and b of equal length, xor(xor(a, b), b) == a. -/
theorem c6_xor_involution (encode : String → List Nat) (a b : List Nat)
    (ha : ∀ v ∈ a, v < 256) (hb : ∀ v ∈ b, v < 256)
    (hlen : a.length = b.length) :
    (xor encode [Input.bytes a, Input.bytes b] Option.none).bind
      (fun c => xor encode [Input.bytes c, Input.bytes b] Option.none) =
      Except.ok a := by
  rw [xor_pair_eval encode a b ha hb hlen]
  show xor encode [Input.bytes (zipXor a b), Input.bytes b] Option.none =
    Except.ok a
  rw [xor_pair_eval encode (zipXor a b) b (zipXor_lt_256 a b ha hb hlen) hb
    ((zipXor_length a b).trans hlen)]
  rw [zipXor_involution a b]

/-- Witness for c6_xor_involution at a = [1, 2], b = [255, 4]:
xor(xor(a, b), b) recovers [1, 2]. -/
theorem c6_xor_involution_witness :
    (∀ v ∈ [1, 2], v < 256) ∧ (∀ v ∈ [255, 4], v < 256) ∧
    ([1, 2] : List Nat).length = ([255, 4] : List Nat).length ∧
    (xor asciiEncode [Input.bytes [1, 2], Input.bytes [255, 4]] Option.none).bind
      (fun c => xor asciiEncode [Input.bytes c, Input.bytes [255, 4]]
        Option.none) = Except.ok [1, 2] :=
  ⟨by decide, by decide, by decide,
    c6_xor_involution asciiEncode [1, 2] [255, 4] (by decide) (by decide)
      (by decide)⟩

/-- C7 counterexample: the claim says xor(..., length=N) returns a byte
sequence of length exactly N for every input set with at least one input
whose sequence inputs are non-empty.  With the single non-empty input
[300] and N = 1, xor instead raises ValueError, because the combined value
300 is not a byte; no length-1 byte sequence is returned. -/
theorem c7_cex :
    xor asciiEncode [Input.bytes [300]] (some 1) =
      Except.error PyError.valueError := by decide

/-- C7 (amended): for every N and every non-empty input set all of whose
normalized inputs are non-empty, xor_iter with limit_length = N yields
exactly N elements, unconditionally; and whenever every one of those N
combined values lies in the byte range 0..255, xor(..., length=N) returns
the byte sequence of exactly those N elements (truncating or cycling as
needed). -/
theorem c7_explicit_length (encode : String → List Nat) (inputs : List Input)
    (N : Nat) (h0 : inputs ≠ [])
    (hne : ∀ n ∈ normalize_inputs encode inputs, n.Nonempty) :
    xor_iter encode inputs (Limit.nat N) =
      Except.ok (LazyIter.mk (some N)
        (streamAt (normalize_inputs encode inputs))) ∧
    ∃ l, takeN (streamAt (normalize_inputs encode inputs)) N = some l ∧
      l.length = N ∧
      ((∀ v ∈ l, v < 256) → xor encode inputs (some N) = Except.ok l) := by
  refine ⟨rfl, _, produce_all encode inputs h0 hne N, by simp, ?_⟩
  intro hbytes
  rw [xor_eval_ok encode inputs (some N) N _ rfl
    (produce_all encode inputs h0 hne N)]
  exact toBytes_ok _ hbytes

/-- Witness for c7_explicit_length at inputs b"111" and b"1" with N = 2:
exactly two elements are produced and xor(b"111", b"1", length=2) ==
b"\x00\x00", the spec's truncation example; additionally, the non-byte
inputs [300] and [300] combine to the in-range value 0, so
xor([300], [300], length=1) == b"\x00" as the combined-value condition
allows, even though the inputs themselves are out of byte range. -/
theorem c7_explicit_length_witness :
    ((xor_iter asciiEncode [Input.bytes [49, 49, 49], Input.bytes [49]]
        (Limit.nat 2) =
      Except.ok (LazyIter.mk (some 2)
        (streamAt (normalize_inputs asciiEncode
          [Input.bytes [49, 49, 49], Input.bytes [49]])))) ∧
     ∃ l, takeN (streamAt (normalize_inputs asciiEncode
        [Input.bytes [49, 49, 49], Input.bytes [49]])) 2 = some l ∧
       l.length = 2 ∧
       ((∀ v ∈ l, v < 256) →
         xor asciiEncode [Input.bytes [49, 49, 49], Input.bytes [49]]
           (some 2) = Except.ok l)) ∧
    xor asciiEncode [Input.bytes [49, 49, 49], Input.bytes [49]] (some 2) =
      Except.ok [0, 0] ∧
    xor asciiEncode [Input.bytes [300], Input.bytes [300]] (some 1) =
      Except.ok [0] :=
  ⟨c7_explicit_length asciiEncode [Input.bytes [49, 49, 49], Input.bytes [49]]
      2 (List.cons_ne_nil _ _) (by decide),
    by decide, by decide⟩

/-- C8 counterexample: the claim quantifies over every input set, but an
empty input does not behave as logically infinite: with the single input
b"" under the never-stop policy, construction succeeds, yet requesting the
very first element already fails (the underlying stream yields nothing),
so the combined stream terminates with an error of its own accord. -/
theorem c8_cex :
    xor_iter asciiEncode [Input.bytes []] Limit.fls =
      Except.ok (LazyIter.mk Option.none
        (streamAt (normalize_inputs asciiEncode [Input.bytes []]))) ∧
    streamAt (normalize_inputs asciiEncode [Input.bytes []]) 0 =
      Option.none :=
  ⟨rfl, rfl⟩

/-- C8 (amended): for every non-empty input set whose normalized inputs are
all non-empty, each normalized input is logically infinite from the
combiner's perspective — at every position it yields its cycled value
(position modulo length for finite inputs) — and the combined stream
yields a value at every position, never terminating or failing of its own
accord; only the termination policy bounds it. -/
theorem c8_cycling (encode : String → List Nat) (inputs : List Input)
    (h0 : inputs ≠ [])
    (hne : ∀ n ∈ normalize_inputs encode inputs, n.Nonempty) :
    (∀ n ∈ normalize_inputs encode inputs, ∀ i, n.elem i = some (n.val i)) ∧
    (∀ i, ∃ v, streamAt (normalize_inputs encode inputs) i = some v) := by
  constructor
  · intro n hn i
    exact NormInput.elem_eq_val n i (hne n hn)
  · intro i
    exact ⟨_, streamAt_eq_xorAll _ i
      (fun hnil => h0 (List.map_eq_nil_iff.mp hnil)) hne⟩

/-- Witness for c8_cycling at inputs b"1" (finite, cycling) and an infinite
stream of 0x31: every element is defined, and position 3 of the length-1
finite input has cycled back to its only element, giving 0. -/
theorem c8_cycling_witness :
    ((∀ n ∈ normalize_inputs asciiEncode
        [Input.bytes [49], Input.stream (fun _ => 49)],
        ∀ i, n.elem i = some (n.val i)) ∧
     (∀ i, ∃ v, streamAt (normalize_inputs asciiEncode
        [Input.bytes [49], Input.stream (fun _ => 49)]) i = some v)) ∧
    streamAt (normalize_inputs asciiEncode
      [Input.bytes [49], Input.stream (fun _ => 49)]) 3 = some 0 :=
  ⟨c8_cycling asciiEncode [Input.bytes [49], Input.stream (fun _ => 49)]
      (List.cons_ne_nil _ _) (by decide),
    rfl⟩

/-- C9 counterexample: a bare integer and the single-element sequence [v]
do not produce the same sequence under every policy, because [v] is Sized
with length 1 while a bare integer's length is ignored by max_size.  Two
instances: with a stream input of unknown length under the default policy,
xor_iter(a, 49) is unbounded while xor_iter(a, [49]) is bounded to one
element; and with a the empty byte string b"" (a Sized input of known
length 0) under the True policy, xor_iter(a, 49) is bounded to zero
elements while xor_iter(a, [49]) is bounded to one.  So the two variants
can differ even when an input exposes a known length, namely when every
known length is 0. -/
theorem c9_cex :
    (xor_iter asciiEncode [Input.stream (fun _ => 49), Input.int 49]
        Limit.none ≠
      xor_iter asciiEncode [Input.stream (fun _ => 49), Input.bytes [49]]
        Limit.none) ∧
    (xor_iter asciiEncode [Input.bytes [], Input.int 49] Limit.tru ≠
      xor_iter asciiEncode [Input.bytes [], Input.bytes [49]] Limit.tru) := by
  constructor
  · intro h
    have hb : (Option.none : Option Nat) = some 1 :=
      congrArg (fun e : Except Unit LazyIter =>
        match e with
        | Except.ok it => it.bound
        | Except.error _ => Option.none) h
    exact Option.noConfusion hb
  · intro h
    have hb : (some 0 : Option Nat) = some 1 :=
      congrArg (fun e : Except Unit LazyIter =>
        match e with
        | Except.ok it => it.bound
        | Except.error _ => Option.none) h
    exact absurd (Option.some.inj hb) (by decide)

/-- C9 (amended): a bare integer v normalizes exactly like the
single-element sequence [v], so the combined element streams coincide at
every position; the xor_iter results are identical under the never-stop
and explicit-N policies, and under the true/default policies whenever the
other input exposes a known length of at least 1.  Under the true/default
policies the two variants can differ when every known length is below 1
(no Sized input at all, or only Sized inputs of length 0), since [v] adds
the known length 1 to max_size while a bare integer's length is ignored;
both differing cases are exhibited by the counterexample.  In particular
xor(b"11", 0x31) == b"\x00\x00". -/
theorem c9_broadcast (encode : String → List Nat) (a : Input) (v : Nat)
    (limit : Limit)
    (hlim : limit = Limit.fls ∨ (∃ k, limit = Limit.nat k) ∨
      (∃ k, sizedLen a = some k ∧ 1 ≤ k)) :
    normalizeInput encode (Input.int v) =
      normalizeInput encode (Input.bytes [v]) ∧
    streamAt (normalize_inputs encode [a, Input.int v]) =
      streamAt (normalize_inputs encode [a, Input.bytes [v]]) ∧
    xor_iter encode [a, Input.int v] limit =
      xor_iter encode [a, Input.bytes [v]] limit := by
  refine ⟨rfl, rfl, ?_⟩
  rcases hlim with rfl | ⟨k, rfl⟩ | ⟨k, hsk, hk1⟩
  · rfl
  · rfl
  · have h1 : max_size [a, Input.int v] = some k := by
      show (List.filterMap sizedLen [a, Input.int v]).max? = some k
      rw [List.filterMap_cons, hsk]
      rfl
    have h2 : max_size [a, Input.bytes [v]] = some k := by
      show (List.filterMap sizedLen [a, Input.bytes [v]]).max? = some k
      rw [List.filterMap_cons, hsk]
      show some (max k 1) = some k
      rw [Nat.max_eq_left hk1]
    cases limit with
    | none =>
      rw [xor_iter_none_some encode _ k h1, xor_iter_none_some encode _ k h2]
      rfl
    | tru =>
      rw [xor_iter_tru_some encode _ k h1, xor_iter_tru_some encode _ k h2]
      rfl
    | fls => rfl
    | nat n => rfl

/-- Witness for c9_broadcast at a = b"11", v = 0x31 under the strict True
policy (b"11" is Sized with length 2), plus the spec example
xor(b"11", 0x31) == b"\x00\x00". -/
theorem c9_broadcast_witness :
    (∃ k, sizedLen (Input.bytes [49, 49]) = some k ∧ 1 ≤ k) ∧
    (normalizeInput asciiEncode (Input.int 49) =
       normalizeInput asciiEncode (Input.bytes [49]) ∧
     streamAt (normalize_inputs asciiEncode
        [Input.bytes [49, 49], Input.int 49]) =
       streamAt (normalize_inputs asciiEncode
        [Input.bytes [49, 49], Input.bytes [49]]) ∧
     xor_iter asciiEncode [Input.bytes [49, 49], Input.int 49] Limit.tru =
       xor_iter asciiEncode [Input.bytes [49, 49], Input.bytes [49]]
         Limit.tru) ∧
    xor asciiEncode [Input.bytes [49, 49], Input.int 49] Option.none =
      Except.ok [0, 0] :=
  ⟨⟨2, rfl, by decide⟩,
    c9_broadcast asciiEncode (Input.bytes [49, 49]) 49 Limit.tru
      (Or.inr (Or.inr ⟨2, rfl, by decide⟩)),
    by decide⟩

theorem pullAll_append_empty (pre : List NormInput) (n : NormInput)
    (rest : List NormInput) (i : Nat)
    (hpre : ∀ m ∈ pre, m.Nonempty) (hn : ¬ n.Nonempty) :
    pullAll (pre ++ n :: rest) i = pre.map (fun m => m.val i) := by
  induction pre with
  | nil =>
    simp only [List.nil_append, List.map_nil, pullAll,
      NormInput.elem_of_empty hn]
  | cons m pre ih =>
    have h1 : m.Nonempty := hpre m (List.mem_cons_self m pre)
    simp only [List.cons_append, pullAll, NormInput.elem_eq_val m i h1,
      List.map_cons, List.append_eq]
    rw [ih (fun q hq => hpre q (List.mem_cons_of_mem m hq))]

/-- C10: when the normalized inputs split as pre ++ empty :: rest with
every input in pre non-empty (the first empty normalized input sits right
after pre), every step of the combined stream folds exactly the values of
the inputs in pre — later inputs are silently ignored; construction with
an explicit bound always succeeds (no error at construction time); and
when the FIRST input is empty the fold is over nothing, so requesting any
element fails (TypeError) at that moment. -/
theorem c10_empty_input (encode : String → List Nat) (inputs : List Input)
    (pre : List NormInput) (n : NormInput) (rest : List NormInput)
    (hsplit : normalize_inputs encode inputs = pre ++ n :: rest)
    (hpre : ∀ m ∈ pre, m.Nonempty) (hn : ¬ n.Nonempty) :
    (∀ i, streamAt (normalize_inputs encode inputs) i =
      reduceXor (pre.map (fun m => m.val i))) ∧
    (∀ k, xor_iter encode inputs (Limit.nat k) =
      Except.ok (LazyIter.mk (some k)
        (streamAt (normalize_inputs encode inputs)))) ∧
    (pre = [] → ∀ i, streamAt (normalize_inputs encode inputs) i =
      Option.none) := by
  have key : ∀ i, streamAt (normalize_inputs encode inputs) i =
      reduceXor (pre.map (fun m => m.val i)) := by
    intro i
    unfold streamAt
    rw [hsplit, pullAll_append_empty pre n rest i hpre hn]
  refine ⟨key, fun k => rfl, ?_⟩
  intro hpre0 i
  rw [key i, hpre0]
  rfl

/-- Witness for c10_empty_input at inputs b"" and b"1" (first input empty:
every element request fails while construction succeeds), together with
the ignored-empty-input example xor(b"abc", b"") == b"abc". -/
theorem c10_empty_input_witness :
    normalize_inputs asciiEncode [Input.bytes [], Input.bytes [49]] =
      [] ++ NormInput.fin [] :: [NormInput.fin [49]] ∧
    (¬ (NormInput.fin ([] : List Nat)).Nonempty) ∧
    (∀ i, streamAt (normalize_inputs asciiEncode
        [Input.bytes [], Input.bytes [49]]) i =
      reduceXor (([] : List NormInput).map (fun m => m.val i))) ∧
    takeN (streamAt (normalize_inputs asciiEncode
      [Input.bytes [], Input.bytes [49]])) 1 = Option.none ∧
    xor asciiEncode [Input.bytes [97, 98, 99], Input.bytes []] Option.none =
      Except.ok [97, 98, 99] :=
  ⟨rfl, by decide,
    (c10_empty_input asciiEncode [Input.bytes [], Input.bytes [49]]
      [] (NormInput.fin []) [NormInput.fin [49]] rfl
      (fun m hm => absurd hm (List.not_mem_nil m)) (by decide)).1,
    by decide, by decide⟩
